import Mathlib

/-!
Verification of the client-side notification reconciler in
`src/components/notifications/notification-bell.tsx`.

The reconciler merges batches of derived notification candidates into one
identity-keyed, read/unread-annotated, timestamp-sorted list, and requests
at-most-once side-channel (email) delivery per identity.  We shallowly embed
the relevant functions: `mergeNotifications`, `sendEmailNotification`, the
candidate producers (`userNotifications` for the user-document handler and
`requestNotifications` for `processProjectSnapshot`), and `handleMarkAsRead`.
Timestamps (`Timestamp.toMillis()`) are modelled as integers (milliseconds);
the Firestore handle and the asynchronous plumbing are out of scope, with the
mutable component state (`allNotifications`, `sentEmailsRef`) passed
explicitly.
-/

/-- The closed enumeration of notification kinds (`NotificationType`). -/
inductive NotificationType where
  | new_bid
  | gig_hired
  | project_chat
  | direct_message
  | delivery_approved
  | project_disputed
  | new_report
  | new_contact_submission
  | review_request
  | new_delivery
  | project_completed
  | direct_booking_request
  | direct_booking_approved
  | direct_booking_declined
  | dispute_resolved
deriving DecidableEq, Repr

/-- A notification candidate before read-state annotation
(`Omit<Notification, 'isRead'>` in the source): identity `id`, kind,
message, navigation link, generation timestamp in milliseconds, and the
optional recipient contact fields used only for side-channel delivery. -/
structure NotifData where
  id : String
  type : NotificationType
  message : String
  link : String
  timestamp : Int
  recipientEmail : Option String := none
  recipientName : Option String := none
deriving DecidableEq, Repr

/-- A reconciled notification: candidate data joined with the derived
`isRead` flag (the `Notification` interface of the source). -/
structure Notification where
  data : NotifData
  isRead : Bool
deriving DecidableEq, Repr

/-- The mail document enqueued to the `mail` collection by
`sendEmailNotification` (`mailTo` models the `to` field, a reserved word in
Lean). -/
structure MailData where
  mailTo : List String
  subject : String
  html : String
deriving DecidableEq, Repr

/-- The mail document built by `sendEmailNotification` from a notification
and its recipient email (template string of the source, whitespace
collapsed). -/
def mkMail (email : String) (n : NotifData) : MailData :=
  { mailTo := [email]
    subject := "New Notification: " ++ n.message.take 50 ++ "..."
    html := "<p>Hello " ++ n.recipientName.getD "there" ++
      ",</p><p>You have a new notification on AltMe:</p><p><strong>" ++
      n.message ++ "</strong></p><p><a href=\"https://altme.fyi" ++ n.link ++
      "\">Click here to view it</a></p><p>Thank you,</p><p>The AltMe Team</p>" }

/-- `sendEmailNotification`: returns without enqueuing when the recipient
email is absent or the identity is already in the in-memory sent set
(`sentEmailsRef`); otherwise enqueues one mail document and records the
identity in the sent set.  The sent set is passed and returned explicitly;
the `firestore` null-check and the enqueue failure path are out of scope
(success modelled). -/
def sendEmailNotification (sent : List String) (n : NotifData) :
    Option MailData × List String :=
  match n.recipientEmail with
  | none => (none, sent)
  | some email =>
    if sent.contains n.id then (none, sent)
    else (some (mkMail email n), sent ++ [n.id])

/-- `Map.set` of the JS `Map<string, ...>` keyed by `id`: replace the entry
with the same key in place, else append.  Maps are only ever built from the
empty map by `mapSet`, so keys are unique and replacing the first occurrence
is exactly the JS semantics. -/
def mapSet (m : List NotifData) (n : NotifData) : List NotifData :=
  match m with
  | [] => [n]
  | x :: xs => if x.id == n.id then n :: xs else x :: mapSet xs n

/-- `Map.has` on the identity-keyed map. -/
def mapHas (m : List NotifData) (i : String) : Bool :=
  m.any fun x => x.id == i

/-- `Map.get` on the identity-keyed map. -/
def mapGet (m : List NotifData) (i : String) : Option NotifData :=
  m.find? fun x => x.id == i

/-- The keys of the identity-keyed map, in insertion order. -/
def idsD (m : List NotifData) : List String :=
  m.map fun x => x.id

/-- The identities of a reconciled list. -/
def idsOf (l : List Notification) : List String :=
  l.map fun n => n.data.id

/-- Seeding of the merge map from the previously reconciled list
(`prevNotifs.forEach(n => notifsMap.set(n.id, n))`); the `isRead` flag is
dropped since the annotation step overwrites it on every value. -/
def seedMap (prev : List Notification) : List NotifData :=
  prev.foldl (fun m n => mapSet m n.data) []

/-- Inserting a whole batch into the map in order
(`newNotifs.forEach(newNotif => notifsMap.set(newNotif.id, newNotif))`). -/
def applyBatch (m : List NotifData) (batch : List NotifData) : List NotifData :=
  batch.foldl mapSet m

/-- The identity-keyed mapping a merge pass ends with: the map seeded from
the existing list with each new candidate overwritten/inserted. -/
def mergeMap (prev : List Notification) (batch : List NotifData) : List NotifData :=
  applyBatch (seedMap prev) batch

/-- Annotation of one map value with the derived read flag
(`{ ...n, isRead: readIds.has(n.id) }`). -/
def annotate (readIds : List String) (d : NotifData) : Notification :=
  ⟨d, readIds.contains d.id⟩

/-- The descending-timestamp order used by the final
`sort((a, b) => b.timestamp.toMillis() - a.timestamp.toMillis())`. -/
def notifGE (a b : Notification) : Prop :=
  b.data.timestamp ≤ a.data.timestamp

instance : DecidableRel notifGE :=
  fun a b => Int.decLe b.data.timestamp a.data.timestamp

instance : IsTotal Notification notifGE :=
  ⟨fun a b => le_total b.data.timestamp a.data.timestamp⟩

instance : IsTrans Notification notifGE :=
  ⟨fun _ _ _ h1 h2 => le_trans h2 h1⟩

/-- Sorting the reconciled list by generation timestamp, descending. -/
def sortDesc (l : List Notification) : List Notification :=
  l.insertionSort notifGE

/-- State threaded through the `newNotifs.forEach` loop of
`mergeNotifications`: the identity-keyed map, the mail documents enqueued
during the pass, the identities those mails were emitted for (bookkeeping
parallel to `mails`), and the in-memory sent set. -/
structure MergeOut where
  map : List NotifData
  mails : List MailData
  emitted : List String
  sent : List String
deriving DecidableEq, Repr

/-- The `newNotifs.forEach` loop of `mergeNotifications`: for each candidate
in order, record whether its identity is new (`!notifsMap.has`), insert it,
and when it is new and unread call `sendEmailNotification`. -/
def mergeAux (readIds : List String) (m : List NotifData) (sent : List String) :
    List NotifData → MergeOut
  | [] => ⟨m, [], [], sent⟩
  | n :: bs =>
    let isNew := ! mapHas m n.id
    let m' := mapSet m n
    if isNew && ! readIds.contains n.id then
      match sendEmailNotification sent n with
      | (some mail, sent') =>
        let r := mergeAux readIds m' sent' bs
        ⟨r.map, mail :: r.mails, n.id :: r.emitted, r.sent⟩
      | (none, sent') =>
        mergeAux readIds m' sent' bs
    else
      mergeAux readIds m' sent bs

/-- The result of one merge pass: the new reconciled list, the mail
documents enqueued, the identities delivered for, and the updated sent
set. -/
structure MergeResult where
  list : List Notification
  mails : List MailData
  emitted : List String
  sent : List String
deriving DecidableEq, Repr

/-- `mergeNotifications(newNotifs, readIds)`: seed the identity-keyed map
from the previous list, run the batch loop, then return all map values
annotated with `isRead` and sorted by timestamp descending.  The component
state read and written by the source (`allNotifications` via
`setAllNotifications`, `sentEmailsRef.current`) is passed in and returned
explicitly. -/
def mergeNotifications (prev : List Notification) (batch : List NotifData)
    (readIds : List String) (sent : List String) : MergeResult :=
  let r := mergeAux readIds (seedMap prev) sent batch
  ⟨sortDesc (r.map.map (annotate readIds)), r.mails, r.emitted, r.sent⟩

/-- `unreadCount`: the number of reconciled entries with `isRead = false`. -/
def unreadCount (l : List Notification) : Nat :=
  (l.filter fun n => ! n.isRead).length

/-- `handleMarkAsRead`: when the list is empty or has no unread entry, no
persistence write is issued (`none`); otherwise exactly one write is issued
whose payload is the list of unread identities to union into
`readNotificationIds` (the `!user || !firestore` guard is out of scope). -/
def handleMarkAsRead (allNotifications : List Notification) : Option (List String) :=
  if allNotifications.isEmpty then none
  else
    let unreadIds := (allNotifications.filter fun n => ! n.isRead).map fun n => n.data.id
    if unreadIds.isEmpty then none else some unreadIds

/-- The fields of the viewing user's document read by the user-document
snapshot handler (`User` in the source; counters are optional numbers,
absent modelled as `none`). -/
structure UserRecord where
  role : String
  name : Option String := none
  email : Option String := none
  readNotificationIds : List String := []
  openReportsCount : Option Nat := none
  unreadContactSubmissionsCount : Option Nat := none
  disputedProjectsCount : Option Nat := none
  unreadGigsCount : Option Nat := none
  pendingReviewCount : Option Nat := none
deriving DecidableEq, Repr

/-- The fields of a request/project record read by the notification
producers (`ProjectRequest` in the source). -/
structure ProjectRequest where
  id : String
  userId : String
  title : String
  status : String
  createdAt : Int
  unreadBidsCount : Option Nat := none
  clientHasReviewed : Bool := false
  photographerHasReviewed : Bool := false
  photographerRespondedAt : Option Int := none
  hiredPhotographerId : Option String := none
  disputeResolvedAt : Option Int := none
  disputeResolution : Option String := none
deriving DecidableEq, Repr

/-- The candidate batch built by the user-document snapshot handler from the
fetched user data.  `gigLookup` is the outcome of the best-effort
single-gig point query (`none` covers both an empty result and a thrown
fetch error, which the source handles identically with the generic
fallback); `now` stands for `Timestamp.now()`. -/
def userNotifications (uid : String) (u : UserRecord)
    (gigLookup : Option ProjectRequest) (now : Int) : List NotifData :=
  if u.role == "admin" then
    let adminEmail := "ayn.eee.11@gmail.com"
    (match u.openReportsCount with
     | some c =>
       if c > 0 then
         [⟨"reports-" ++ uid, .new_report,
           "There are " ++ toString c ++ " open user reports to review.",
           "/admin/reports", now, some adminEmail, u.name⟩]
       else []
     | none => []) ++
    (match u.unreadContactSubmissionsCount with
     | some c =>
       if c > 0 then
         [⟨"contact-" ++ uid, .new_contact_submission,
           "You have " ++ toString c ++ " new contact submission(s).",
           "/admin/inbox", now, some adminEmail, u.name⟩]
       else []
     | none => []) ++
    (match u.disputedProjectsCount with
     | some c =>
       if c > 0 then
         [⟨"disputes-" ++ uid, .project_disputed,
           "There are " ++ toString c ++ " disputed projects requiring review.",
           "/admin/projects", now, some adminEmail, u.name⟩]
       else []
     | none => [])
  else
    let unreadGigsCount := u.unreadGigsCount.getD 0
    (if unreadGigsCount > 0 then
       if unreadGigsCount == 1 then
         match gigLookup with
         | some gig =>
           [⟨"gig-" ++ gig.id, .gig_hired,
             "You've been hired for \"" ++ gig.title ++ "\"!",
             "/requests/" ++ gig.id, now, u.email, u.name⟩]
         | none =>
           [⟨"gigs-" ++ uid, .gig_hired, "You have 1 new gig!",
             "/requests", now, u.email, u.name⟩]
       else
         [⟨"gigs-" ++ uid, .gig_hired,
           "You have " ++ toString unreadGigsCount ++ " new gigs!",
           "/requests", now, u.email, u.name⟩]
     else []) ++
    (match u.pendingReviewCount with
     | some c =>
       if c > 0 then
         [⟨"review-multi-" ++ uid, .review_request,
           "You have " ++ toString c ++ " project(s) to review.",
           "/requests", now, u.email, u.name⟩]
       else []
     | none => [])

/-- The candidates contributed for one request document by the
`snapshot.docs.forEach` body of `processProjectSnapshot`; `userEmail` and
`userName` are `userData?.email` / `userData?.name`, `now` is
`Timestamp.now()`. -/
def requestNotifications (uid : String) (userEmail userName : Option String)
    (now : Int) (request : ProjectRequest) : List NotifData :=
  (if request.userId == uid then
    (match request.unreadBidsCount with
     | some c =>
       if c > 0 then
         [⟨"bid-" ++ request.id, .new_bid,
           toString c ++ " new bid(s) on \"" ++ request.title ++ "\"",
           "/requests/" ++ request.id, now, userEmail, userName⟩]
       else []
     | none => []) ++
    (if request.status == "Delivered" && ! request.clientHasReviewed then
       [⟨"delivery-" ++ request.id, .new_delivery,
         "Files have been delivered for \"" ++ request.title ++ "\"",
         "/requests/" ++ request.id, now, userEmail, userName⟩]
     else []) ++
    (match request.photographerRespondedAt with
     | some t =>
       if request.status == "Pending" then
         [⟨"booking-approved-" ++ request.id, .direct_booking_approved,
           "Your booking request for \"" ++ request.title ++
             "\" was approved! Please complete the payment.",
           "/requests/" ++ request.id, t, userEmail, userName⟩]
       else if request.status == "Disabled" then
         [⟨"booking-declined-" ++ request.id, .direct_booking_declined,
           "Your booking request for \"" ++ request.title ++ "\" was declined.",
           "/requests", t, userEmail, userName⟩]
       else []
     | none => [])
   else []) ++
  (if request.hiredPhotographerId == some uid then
    (if request.status == "Pending" && request.photographerRespondedAt.isNone then
       [⟨"booking-" ++ request.id, .direct_booking_request,
         "New direct booking request for \"" ++ request.title ++ "\"",
         "/requests/" ++ request.id, request.createdAt, userEmail, userName⟩]
     else []) ++
    (if request.status == "Delivered" && request.clientHasReviewed &&
        ! request.photographerHasReviewed then
       [⟨"review-" ++ request.id, .review_request,
         "The client has left a review for \"" ++ request.title ++
           "\". Please leave your review to complete the project.",
         "/requests/" ++ request.id, now, userEmail, userName⟩]
     else [])
   else []) ++
  (if request.status == "Completed" &&
      ! (request.clientHasReviewed && request.photographerHasReviewed) then
     [⟨"completed-" ++ request.id, .project_completed,
       "Project \"" ++ request.title ++ "\" is complete!",
       "/requests/" ++ request.id, now, userEmail, userName⟩]
   else []) ++
  (match request.disputeResolvedAt with
   | some t =>
     let message :=
       if request.disputeResolution == some "refunded" then
         "Dispute for \"" ++ request.title ++ "\": The client has been refunded."
       else if request.disputeResolution == some "paid" then
         "Dispute for \"" ++ request.title ++ "\": The photographer has been paid."
       else
         "Dispute for \"" ++ request.title ++ "\" has been resolved."
     [⟨"dispute-res-" ++ request.id, .dispute_resolved, message,
       "/requests/" ++ request.id, t, userEmail, userName⟩]
   | none => [])

/-- `processProjectSnapshot`: the batch built over all request documents of
one snapshot. -/
def processProjectSnapshot (uid : String) (userEmail userName : Option String)
    (now : Int) (reqs : List ProjectRequest) : List NotifData :=
  reqs.flatMap (requestNotifications uid userEmail userName now)

/-! ### Map lemmas -/

theorem mapHas_iff (m : List NotifData) (i : String) :
    mapHas m i = true ↔ i ∈ idsD m := by
  simp [mapHas, idsD, List.any_eq_true, List.mem_map]


theorem idsD_cons (x : NotifData) (xs : List NotifData) :
    idsD (x :: xs) = x.id :: idsD xs := rfl

theorem applyBatch_nil (m : List NotifData) : applyBatch m [] = m := rfl

theorem applyBatch_cons (m : List NotifData) (n : NotifData) (bs : List NotifData) :
    applyBatch m (n :: bs) = applyBatch (mapSet m n) bs := rfl

theorem find?_append_aux (p : NotifData → Bool) (l₁ l₂ : List NotifData) :
    (l₁ ++ l₂).find? p = (l₁.find? p).or (l₂.find? p) := by
  induction l₁ with
  | nil => simp [Option.or]
  | cons x xs ih =>
    cases h : p x
    · rw [List.cons_append, List.find?_cons_of_neg _ (by simp [h]),
        List.find?_cons_of_neg _ (by simp [h]), ih]
    · rw [List.cons_append, List.find?_cons_of_pos _ h,
        List.find?_cons_of_pos _ h]
      simp [Option.or]

theorem mapGet_mapSet (m : List NotifData) (n : NotifData) (i : String) :
    mapGet (mapSet m n) i = if n.id = i then some n else mapGet m i := by
  induction m with
  | nil =>
    by_cases h : n.id = i
    · simp only [mapGet, mapSet, if_pos h]
      rw [List.find?_cons_of_pos _ (by simp [h])]
    · simp only [mapGet, mapSet, if_neg h]
      rw [List.find?_cons_of_neg _ (by simp [h])]
  | cons x xs ih =>
    simp only [mapSet]
    by_cases hx : x.id = n.id
    · rw [if_pos (show (x.id == n.id) = true by simp [hx])]
      by_cases h : n.id = i
      · simp only [mapGet, if_pos h]
        rw [List.find?_cons_of_pos _ (by simp [h])]
      · simp only [mapGet, if_neg h]
        rw [List.find?_cons_of_neg _ (by simp [h]),
          List.find?_cons_of_neg _ (by simp [hx, h])]
    · rw [if_neg (show ¬ (x.id == n.id) = true by simp [hx])]
      by_cases hxi : x.id = i
      · have hni : ¬ n.id = i := fun hc => hx (hxi.trans hc.symm)
        simp only [mapGet, if_neg hni]
        rw [List.find?_cons_of_pos _ (by simp [hxi]),
          List.find?_cons_of_pos _ (by simp [hxi])]
      · simp only [mapGet]
        rw [List.find?_cons_of_neg _ (by simp [hxi]),
          List.find?_cons_of_neg _ (by simp [hxi])]
        simpa only [mapGet] using ih

theorem idsD_mapSet (m : List NotifData) (n : NotifData) :
    idsD (mapSet m n) =
      if mapHas m n.id then idsD m else idsD m ++ [n.id] := by
  induction m with
  | nil => simp [idsD, mapSet, mapHas]
  | cons x xs ih =>
    simp only [mapSet]
    by_cases hx : x.id = n.id
    · rw [if_pos (show (x.id == n.id) = true by simp [hx])]
      have hhas : mapHas (x :: xs) n.id = true := by
        simp [mapHas, hx]
      simp [hhas, idsD, hx]
    · rw [if_neg (show ¬ (x.id == n.id) = true by simp [hx])]
      have hhas : mapHas (x :: xs) n.id = mapHas xs n.id := by
        simp [mapHas, hx]
      rw [hhas]
      simp only [idsD_cons]
      rw [ih]
      by_cases hh : mapHas xs n.id = true <;> simp [hh]

theorem mem_idsD_mapSet (m : List NotifData) (n : NotifData) (i : String) :
    i ∈ idsD (mapSet m n) ↔ i = n.id ∨ i ∈ idsD m := by
  rw [idsD_mapSet]
  by_cases h : mapHas m n.id = true
  · simp only [h, if_true]
    constructor
    · exact fun hm => Or.inr hm
    · rintro (rfl | hm)
      · exact (mapHas_iff m n.id).mp h
      · exact hm
  · have hf : mapHas m n.id = false := by
      cases hb : mapHas m n.id
      · rfl
      · exact absurd hb h
    simp [hf, List.mem_append, or_comm]

theorem nodup_idsD_mapSet (m : List NotifData) (n : NotifData)
    (h : (idsD m).Nodup) : (idsD (mapSet m n)).Nodup := by
  rw [idsD_mapSet]
  by_cases hh : mapHas m n.id = true
  · simpa [hh] using h
  · have hf : mapHas m n.id = false := by
      cases hb : mapHas m n.id
      · rfl
      · exact absurd hb hh
    have hn : n.id ∉ idsD m := fun hc => hh ((mapHas_iff m n.id).mpr hc)
    simp only [hf, Bool.false_eq_true, if_false]
    exact List.Nodup.append h (List.nodup_singleton _)
      (fun a ha hb => hn ((List.mem_singleton.mp hb) ▸ ha))

theorem mem_idsD_applyBatch (m : List NotifData) (b : List NotifData) (i : String) :
    i ∈ idsD (applyBatch m b) ↔ i ∈ idsD m ∨ i ∈ idsD b := by
  induction b generalizing m with
  | nil => simp [applyBatch_nil, idsD]
  | cons n bs ih =>
    rw [applyBatch_cons, ih, mem_idsD_mapSet, idsD_cons, List.mem_cons]
    tauto

theorem nodup_idsD_applyBatch (m : List NotifData) (b : List NotifData)
    (h : (idsD m).Nodup) : (idsD (applyBatch m b)).Nodup := by
  induction b generalizing m with
  | nil => simpa [applyBatch_nil] using h
  | cons n bs ih =>
    rw [applyBatch_cons]
    exact ih (mapSet m n) (nodup_idsD_mapSet m n h)

theorem mapGet_applyBatch (m : List NotifData) (b : List NotifData) (i : String) :
    mapGet (applyBatch m b) i =
      (b.reverse.find? (fun x => x.id == i)).or (mapGet m i) := by
  induction b generalizing m with
  | nil => simp [applyBatch_nil, Option.or]
  | cons n bs ih =>
    rw [applyBatch_cons, ih, List.reverse_cons, find?_append_aux, mapGet_mapSet]
    cases hf : bs.reverse.find? (fun x => x.id == i)
    · by_cases h : n.id = i
      · rw [List.find?_cons_of_pos _ (by simp [h])]
        simp [Option.or, h]
      · rw [List.find?_cons_of_neg _ (by simp [h])]
        simp [Option.or, h]
    · simp [Option.or]

theorem mapGet_eq_some_iff (m : List NotifData) (i : String) (d : NotifData)
    (h : (idsD m).Nodup) : mapGet m i = some d ↔ d ∈ m ∧ d.id = i := by
  induction m with
  | nil => simp [mapGet]
  | cons x xs ih =>
    rw [idsD_cons] at h
    have hx := (List.nodup_cons.mp h).1
    have hxs := (List.nodup_cons.mp h).2
    by_cases hxi : x.id = i
    · simp only [mapGet]
      rw [List.find?_cons_of_pos _ (by simp [hxi])]
      constructor
      · intro h1
        have hxd : x = d := by injection h1
        subst hxd
        exact ⟨List.mem_cons_self x xs, hxi⟩
      · rintro ⟨hd, hdi⟩
        rcases List.mem_cons.mp hd with rfl | hdxs
        · rfl
        · have hmem : d.id ∈ idsD xs := List.mem_map_of_mem _ hdxs
          exact absurd ((hdi.trans hxi.symm) ▸ hmem) hx
    · simp only [mapGet] at ih ⊢
      rw [List.find?_cons_of_neg _ (by simp [hxi]), ih hxs]
      constructor
      · rintro ⟨hd, hdi⟩
        exact ⟨List.mem_cons_of_mem x hd, hdi⟩
      · rintro ⟨hd, hdi⟩
        rcases List.mem_cons.mp hd with rfl | hdxs
        · exact absurd hdi hxi
        · exact ⟨hdxs, hdi⟩

theorem seedMap_eq (prev : List Notification) :
    seedMap prev = applyBatch [] (prev.map fun n => n.data) := by
  simp [seedMap, applyBatch, List.foldl_map]

theorem idsD_map_data (prev : List Notification) :
    idsD (prev.map fun n => n.data) = idsOf prev := by
  simp [idsD, idsOf, List.map_map, Function.comp]

theorem mem_idsD_seedMap (prev : List Notification) (i : String) :
    i ∈ idsD (seedMap prev) ↔ i ∈ idsOf prev := by
  rw [seedMap_eq, mem_idsD_applyBatch, idsD_map_data]
  simp [idsD]

theorem nodup_idsD_seedMap (prev : List Notification) :
    (idsD (seedMap prev)).Nodup := by
  rw [seedMap_eq]
  exact nodup_idsD_applyBatch _ _ (by simp [idsD])

/-! ### The merge pass -/

theorem mergeAux_map (readIds : List String) (m : List NotifData)
    (sent : List String) (b : List NotifData) :
    (mergeAux readIds m sent b).map = applyBatch m b := by
  induction b generalizing m sent with
  | nil => rfl
  | cons n bs ih =>
    rw [applyBatch_cons]
    simp only [mergeAux]
    split
    · split
      · simpa using ih (mapSet m n) _
      · exact ih (mapSet m n) _
    · exact ih (mapSet m n) _

theorem mergeNotifications_list_perm (prev : List Notification)
    (batch : List NotifData) (readIds sent : List String) :
    (mergeNotifications prev batch readIds sent).list.Perm
      ((mergeMap prev batch).map (annotate readIds)) := by
  simp only [mergeNotifications, mergeMap, sortDesc]
  rw [mergeAux_map]
  exact List.perm_insertionSort _ _

theorem mergeNotifications_list_sorted (prev : List Notification)
    (batch : List NotifData) (readIds sent : List String) :
    List.Sorted notifGE (mergeNotifications prev batch readIds sent).list := by
  simp only [mergeNotifications, sortDesc]
  exact List.sorted_insertionSort _ _

theorem isRead_eq_of_mem_merge (prev : List Notification)
    (batch : List NotifData) (readIds sent : List String) (n : Notification)
    (hn : n ∈ (mergeNotifications prev batch readIds sent).list) :
    n.isRead = readIds.contains n.data.id := by
  have hp := mergeNotifications_list_perm prev batch readIds sent
  have hm : n ∈ (mergeMap prev batch).map (annotate readIds) :=
    hp.mem_iff.mp hn
  obtain ⟨d, _, rfl⟩ := List.mem_map.mp hm
  rfl

theorem idsOf_merge_perm (prev : List Notification)
    (batch : List NotifData) (readIds sent : List String) :
    (idsOf (mergeNotifications prev batch readIds sent).list).Perm
      (idsD (mergeMap prev batch)) := by
  have hp := (mergeNotifications_list_perm prev batch readIds sent).map
    (fun n => n.data.id)
  simpa [idsOf, idsD, List.map_map, Function.comp, annotate] using hp

theorem nodup_idsD_mergeMap (prev : List Notification) (batch : List NotifData) :
    (idsD (mergeMap prev batch)).Nodup :=
  nodup_idsD_applyBatch _ _ (nodup_idsD_seedMap prev)

theorem nodup_idsOf_merge (prev : List Notification)
    (batch : List NotifData) (readIds sent : List String) :
    (idsOf (mergeNotifications prev batch readIds sent).list).Nodup :=
  ((idsOf_merge_perm prev batch readIds sent).nodup_iff).mpr
    (nodup_idsD_mergeMap prev batch)

theorem mem_idsOf_merge (prev : List Notification)
    (batch : List NotifData) (readIds sent : List String) (i : String) :
    i ∈ idsOf (mergeNotifications prev batch readIds sent).list ↔
      i ∈ idsOf prev ∨ i ∈ idsD batch := by
  rw [(idsOf_merge_perm prev batch readIds sent).mem_iff, mergeMap,
    mem_idsD_applyBatch, mem_idsD_seedMap]

/-! ### Side-channel delivery -/

theorem sendEmail_some (sent : List String) (n : NotifData) (mail : MailData)
    (sent' : List String)
    (h : sendEmailNotification sent n = (some mail, sent')) :
    n.recipientEmail.isSome ∧ sent.contains n.id = false ∧
      sent' = sent ++ [n.id] := by
  unfold sendEmailNotification at h
  cases he : n.recipientEmail with
  | none => rw [he] at h; simp at h
  | some e =>
    rw [he] at h
    cases hc : sent.contains n.id
    · rw [hc] at h
      simp only [Bool.false_eq_true, if_false] at h
      refine ⟨by simp [he], rfl, ?_⟩
      exact (Prod.mk.injEq _ _ _ _ ▸ h).2.symm
    · rw [hc] at h
      simp at h

theorem sendEmail_none (sent : List String) (n : NotifData) (sent' : List String)
    (h : sendEmailNotification sent n = (none, sent')) : sent' = sent := by
  unfold sendEmailNotification at h
  cases he : n.recipientEmail with
  | none =>
    rw [he] at h
    exact ((Prod.mk.injEq _ _ _ _ ▸ h).2).symm
  | some e =>
    rw [he] at h
    cases hc : sent.contains n.id
    · rw [hc] at h
      simp at h
    · rw [hc] at h
      simp only [if_true] at h
      exact ((Prod.mk.injEq _ _ _ _ ▸ h).2).symm

theorem mapHas_mapSet (m : List NotifData) (n : NotifData) (i : String) :
    mapHas (mapSet m n) i = ((n.id == i) || mapHas m i) := by
  have h1 := mapHas_iff (mapSet m n) i
  have h2 := mapHas_iff m i
  have h3 := mem_idsD_mapSet m n i
  by_cases hn : n.id = i
  · have hmem : i ∈ idsD (mapSet m n) := h3.mpr (Or.inl hn.symm)
    simp [h1.mpr hmem, hn]
  · have hni : (n.id == i) = false := by simp [hn]
    rw [hni, Bool.false_or]
    cases hm : mapHas m i
    · cases hq : mapHas (mapSet m n) i
      · rfl
      · rcases h3.mp (h1.mp hq) with h4 | h4
        · exact absurd h4.symm hn
        · exact absurd (h2.mpr h4) (by simp [hm])
    · exact h1.mpr (h3.mpr (Or.inr (h2.mp hm)))

theorem emitted_forward (readIds : List String) (m : List NotifData)
    (sent : List String) (b : List NotifData) (i : String)
    (h : i ∈ (mergeAux readIds m sent b).emitted) :
    mapHas m i = false ∧ readIds.contains i = false ∧ i ∉ sent ∧
      ∃ n, b.find? (fun x => x.id == i) = some n ∧ n.recipientEmail.isSome := by
  induction b generalizing m sent with
  | nil => simp [mergeAux] at h
  | cons n bs ih =>
    simp only [mergeAux] at h
    by_cases hcond : (! mapHas m n.id && ! readIds.contains n.id) = true
    · rw [if_pos hcond] at h
      have hc1 : mapHas m n.id = false := by
        cases hx : mapHas m n.id
        · rfl
        · rw [hx] at hcond; simp at hcond
      have hc2 : readIds.contains n.id = false := by
        cases hx : readIds.contains n.id
        · rfl
        · rw [hx] at hcond; simp at hcond
      cases hse : sendEmailNotification sent n with
      | mk mo s2 =>
        cases mo with
        | some mail =>
          rw [hse] at h
          simp only [List.mem_cons] at h
          obtain ⟨hmail, hcont, hs2⟩ := sendEmail_some sent n mail s2 hse
          rcases h with rfl | h
          · refine ⟨hc1, hc2, ?_, n, ?_, hmail⟩
            · intro hin
              rw [show sent.contains n.id = true by simpa using hin] at hcont
              exact Bool.true_eq_false.mp hcont
            · rw [List.find?_cons_of_pos _ (by simp)]
          · have hrec := ih (mapSet m n) s2 h
            have hne : ¬ n.id = i := by
              intro he
              have : mapHas (mapSet m n) i = true :=
                (mapHas_iff _ _).mpr ((mem_idsD_mapSet m n i).mpr (Or.inl he.symm))
              rw [this] at hrec
              exact Bool.true_eq_false.mp hrec.1
            have hm : mapHas m i = false := by
              have := hrec.1
              rw [mapHas_mapSet] at this
              cases hx : mapHas m i
              · rfl
              · rw [hx, Bool.or_true] at this; exact this
            refine ⟨hm, hrec.2.1, ?_, ?_⟩
            · intro hin
              exact hrec.2.2.1 (by rw [hs2]; exact List.mem_append_left _ hin)
            · obtain ⟨n2, hf, hmail2⟩ := hrec.2.2.2
              exact ⟨n2, by rw [List.find?_cons_of_neg _ (by simp [hne])]; exact hf, hmail2⟩
        | none =>
          rw [hse] at h
          have hs2 : s2 = sent := sendEmail_none sent n s2 hse
          rw [hs2] at h
          have hrec := ih (mapSet m n) sent h
          have hne : ¬ n.id = i := by
            intro he
            have : mapHas (mapSet m n) i = true :=
              (mapHas_iff _ _).mpr ((mem_idsD_mapSet m n i).mpr (Or.inl he.symm))
            rw [this] at hrec
            exact Bool.true_eq_false.mp hrec.1
          have hm : mapHas m i = false := by
            have := hrec.1
            rw [mapHas_mapSet] at this
            cases hx : mapHas m i
            · rfl
            · rw [hx, Bool.or_true] at this; exact this
          refine ⟨hm, hrec.2.1, hrec.2.2.1, ?_⟩
          obtain ⟨n2, hf, hmail2⟩ := hrec.2.2.2
          exact ⟨n2, by rw [List.find?_cons_of_neg _ (by simp [hne])]; exact hf, hmail2⟩
    · rw [if_neg hcond] at h
      have hrec := ih (mapSet m n) sent h
      have hne : ¬ n.id = i := by
        intro he
        have : mapHas (mapSet m n) i = true :=
          (mapHas_iff _ _).mpr ((mem_idsD_mapSet m n i).mpr (Or.inl he.symm))
        rw [this] at hrec
        exact Bool.true_eq_false.mp hrec.1
      have hm : mapHas m i = false := by
        have := hrec.1
        rw [mapHas_mapSet] at this
        cases hx : mapHas m i
        · rfl
        · rw [hx, Bool.or_true] at this; exact this
      refine ⟨hm, hrec.2.1, hrec.2.2.1, ?_⟩
      obtain ⟨n2, hf, hmail2⟩ := hrec.2.2.2
      exact ⟨n2, by rw [List.find?_cons_of_neg _ (by simp [hne])]; exact hf, hmail2⟩

theorem emitted_backward (readIds : List String) (m : List NotifData)
    (sent : List String) (b : List NotifData) (i : String) (n : NotifData)
    (hsub : ∀ j ∈ sent, mapHas m j = true)
    (hhas : mapHas m i = false) (hread : readIds.contains i = false)
    (hfind : b.find? (fun x => x.id == i) = some n)
    (hmail : n.recipientEmail.isSome) :
    i ∈ (mergeAux readIds m sent b).emitted := by
  induction b generalizing m sent with
  | nil => simp at hfind
  | cons n0 bs ih =>
    by_cases h0 : n0.id = i
    · rw [List.find?_cons_of_pos _ (by simp [h0])] at hfind
      have hn0 : n0 = n := by injection hfind
      subst hn0
      simp only [mergeAux]
      have hcond : (! mapHas m n0.id && ! readIds.contains n0.id) = true := by
        rw [h0, hhas, hread]; rfl
      rw [if_pos hcond]
      have hs : sent.contains n0.id = false := by
        cases hc : sent.contains n0.id
        · rfl
        · have hmem : n0.id ∈ sent := by simpa using hc
          have := hsub _ hmem
          rw [h0, hhas] at this
          exact absurd this (by simp)
      obtain ⟨e, he⟩ := Option.isSome_iff_exists.mp hmail
      have hse : sendEmailNotification sent n0 =
          (some (mkMail e n0), sent ++ [n0.id]) := by
        unfold sendEmailNotification
        rw [he, hs]
        rfl
      rw [hse]
      simp [h0]
    · rw [List.find?_cons_of_neg _ (by simp [h0])] at hfind
      have hhas' : mapHas (mapSet m n0) i = false := by
        rw [mapHas_mapSet, hhas]
        simp [h0]
      have hmapmono : ∀ j ∈ sent, mapHas (mapSet m n0) j = true := by
        intro j hj
        rw [mapHas_mapSet, hsub j hj, Bool.or_true]
      simp only [mergeAux]
      split
      · cases hse : sendEmailNotification sent n0 with
        | mk mo s2 =>
          cases mo with
          | some mail =>
            have hs2 := (sendEmail_some sent n0 mail s2 hse).2.2
            have hsub' : ∀ j ∈ s2, mapHas (mapSet m n0) j = true := by
              intro j hj
              rw [hs2] at hj
              rcases List.mem_append.mp hj with hj | hj
              · exact hmapmono j hj
              · rw [List.mem_singleton.mp hj, mapHas_mapSet]
                simp
            have hrec := ih (mapSet m n0) s2 hsub' hhas' hfind
            simpa using List.mem_cons_of_mem n0.id hrec
          | none =>
            have hs2 : s2 = sent := sendEmail_none sent n0 s2 hse
            rw [hs2]
            simpa using ih (mapSet m n0) sent hmapmono hhas' hfind
      · exact ih (mapSet m n0) sent hmapmono hhas' hfind

theorem emitted_nodup (readIds : List String) (m : List NotifData)
    (sent : List String) (b : List NotifData) :
    (mergeAux readIds m sent b).emitted.Nodup := by
  induction b generalizing m sent with
  | nil => simp [mergeAux]
  | cons n bs ih =>
    simp only [mergeAux]
    split
    · cases hse : sendEmailNotification sent n with
      | mk mo s2 =>
        cases mo with
        | some mail =>
          show (n.id :: (mergeAux readIds (mapSet m n) s2 bs).emitted).Nodup
          refine List.nodup_cons.mpr ⟨?_, ih (mapSet m n) s2⟩
          intro hmem
          have hfwd := (emitted_forward readIds (mapSet m n) s2 bs n.id hmem).1
          rw [mapHas_mapSet] at hfwd
          simp at hfwd
        | none => exact ih (mapSet m n) s2
    · exact ih (mapSet m n) sent

theorem mergeAux_sent_eq (readIds : List String) (m : List NotifData)
    (sent : List String) (b : List NotifData) :
    (mergeAux readIds m sent b).sent =
      sent ++ (mergeAux readIds m sent b).emitted := by
  induction b generalizing m sent with
  | nil => simp [mergeAux]
  | cons n bs ih =>
    simp only [mergeAux]
    split
    · cases hse : sendEmailNotification sent n with
      | mk mo s2 =>
        cases mo with
        | some mail =>
          have hs2 := (sendEmail_some sent n mail s2 hse).2.2
          show (mergeAux readIds (mapSet m n) s2 bs).sent =
            sent ++ (n.id :: (mergeAux readIds (mapSet m n) s2 bs).emitted)
          rw [ih (mapSet m n) s2, hs2]
          simp
        | none =>
          have hs2 : s2 = sent := sendEmail_none sent n s2 hse
          show (mergeAux readIds (mapSet m n) s2 bs).sent =
            sent ++ (mergeAux readIds (mapSet m n) s2 bs).emitted
          rw [hs2]
          exact ih (mapSet m n) sent
    · exact ih (mapSet m n) sent

theorem mergeAux_mails_length (readIds : List String) (m : List NotifData)
    (sent : List String) (b : List NotifData) :
    (mergeAux readIds m sent b).mails.length =
      (mergeAux readIds m sent b).emitted.length := by
  induction b generalizing m sent with
  | nil => rfl
  | cons n bs ih =>
    simp only [mergeAux]
    split
    · cases hse : sendEmailNotification sent n with
      | mk mo s2 =>
        cases mo with
        | some mail =>
          show (mail :: (mergeAux readIds (mapSet m n) s2 bs).mails).length =
            (n.id :: (mergeAux readIds (mapSet m n) s2 bs).emitted).length
          simp [ih (mapSet m n) s2]
        | none => exact ih (mapSet m n) s2
    · exact ih (mapSet m n) sent

theorem merge_emitted_def (prev : List Notification) (batch : List NotifData)
    (readIds sent : List String) :
    (mergeNotifications prev batch readIds sent).emitted =
      (mergeAux readIds (seedMap prev) sent batch).emitted := rfl

theorem merge_sent_def (prev : List Notification) (batch : List NotifData)
    (readIds sent : List String) :
    (mergeNotifications prev batch readIds sent).sent =
      (mergeAux readIds (seedMap prev) sent batch).sent := rfl

theorem merge_mails_def (prev : List Notification) (batch : List NotifData)
    (readIds sent : List String) :
    (mergeNotifications prev batch readIds sent).mails =
      (mergeAux readIds (seedMap prev) sent batch).mails := rfl

theorem merge_emitted_iff (prev : List Notification) (batch : List NotifData)
    (readIds sent : List String) (i : String)
    (hsub : ∀ j ∈ sent, j ∈ idsOf prev) :
    i ∈ (mergeNotifications prev batch readIds sent).emitted ↔
      (i ∉ idsOf prev ∧ readIds.contains i = false ∧
        ∃ n, batch.find? (fun x => x.id == i) = some n ∧
          n.recipientEmail.isSome) := by
  rw [merge_emitted_def]
  constructor
  · intro h
    have hf := emitted_forward readIds (seedMap prev) sent batch i h
    refine ⟨?_, hf.2.1, hf.2.2.2⟩
    intro hmem
    have hh : mapHas (seedMap prev) i = true :=
      (mapHas_iff _ _).mpr ((mem_idsD_seedMap prev i).mpr hmem)
    rw [hh] at hf
    exact absurd hf.1 (by simp)
  · rintro ⟨h1, h2, n, hfind, hmail⟩
    apply emitted_backward readIds (seedMap prev) sent batch i n ?_ ?_ h2 hfind hmail
    · intro j hj
      exact (mapHas_iff _ _).mpr ((mem_idsD_seedMap prev j).mpr (hsub j hj))
    · cases hx : mapHas (seedMap prev) i
      · rfl
      · exact absurd ((mem_idsD_seedMap prev i).mp ((mapHas_iff _ _).mp hx)) h1

theorem merge_emitted_mem_batch (prev : List Notification) (batch : List NotifData)
    (readIds sent : List String) (i : String)
    (h : i ∈ (mergeNotifications prev batch readIds sent).emitted) :
    i ∈ idsD batch := by
  rw [merge_emitted_def] at h
  obtain ⟨n, hfind, _⟩ :=
    (emitted_forward readIds (seedMap prev) sent batch i h).2.2.2
  have hn : n ∈ batch := List.mem_of_find?_eq_some hfind
  have hp := List.find?_some hfind
  have hni : n.id = i := by simpa using hp
  exact hni ▸ List.mem_map_of_mem _ hn

theorem merge_emitted_not_prev (prev : List Notification) (batch : List NotifData)
    (readIds sent : List String) (i : String)
    (h : i ∈ (mergeNotifications prev batch readIds sent).emitted) :
    i ∉ idsOf prev := by
  rw [merge_emitted_def] at h
  intro hmem
  have hh : mapHas (seedMap prev) i = true :=
    (mapHas_iff _ _).mpr ((mem_idsD_seedMap prev i).mpr hmem)
  have hf := (emitted_forward readIds (seedMap prev) sent batch i h).1
  rw [hh] at hf
  exact absurd hf (by simp)

/-! ### Sessions: sequences of merge passes -/

/-- Running a sequence of merge passes in one viewing session: each pass is
one producer firing with its batch and the read-identity set current at that
moment.  Returns the final reconciled list, the final in-memory sent set and
the concatenation of all identities for which a side-channel delivery was
emitted, in order. -/
def runPasses : List Notification → List String →
    List (List NotifData × List String) →
    List Notification × List String × List String
  | l, s, [] => (l, s, [])
  | l, s, (batch, readIds) :: rest =>
    let r := mergeNotifications l batch readIds s
    let k := runPasses r.list r.sent rest
    (k.1, k.2.1, r.emitted ++ k.2.2)

theorem session_count (passes : List (List NotifData × List String))
    (l : List Notification) (s : List String)
    (hsub : ∀ j ∈ s, j ∈ idsOf l) (i : String) :
    ((runPasses l s passes).2.2.count i ≤ 1) ∧
      (i ∈ idsOf l → (runPasses l s passes).2.2.count i = 0) := by
  induction passes generalizing l s with
  | nil => simp [runPasses]
  | cons p rest ih =>
    obtain ⟨batch, readIds⟩ := p
    simp only [runPasses, List.count_append]
    have hsub' : ∀ j ∈ (mergeNotifications l batch readIds s).sent,
        j ∈ idsOf (mergeNotifications l batch readIds s).list := by
      intro j hj
      rw [merge_sent_def, mergeAux_sent_eq, ← merge_emitted_def] at hj
      rcases List.mem_append.mp hj with hj | hj
      · exact (mem_idsOf_merge l batch readIds s j).mpr (Or.inl (hsub j hj))
      · exact (mem_idsOf_merge l batch readIds s j).mpr
          (Or.inr (merge_emitted_mem_batch l batch readIds s j hj))
    have hrec := ih (mergeNotifications l batch readIds s).list
      (mergeNotifications l batch readIds s).sent hsub'
    constructor
    · by_cases hmem : i ∈ (mergeNotifications l batch readIds s).emitted
      · have h1 : (mergeNotifications l batch readIds s).emitted.count i ≤ 1 := by
          rw [merge_emitted_def]
          exact List.nodup_iff_count_le_one.mp (emitted_nodup _ _ _ _) i
        have h2 : (runPasses (mergeNotifications l batch readIds s).list
            (mergeNotifications l batch readIds s).sent rest).2.2.count i = 0 :=
          hrec.2 ((mem_idsOf_merge l batch readIds s i).mpr
            (Or.inr (merge_emitted_mem_batch l batch readIds s i hmem)))
        omega
      · have h1 : (mergeNotifications l batch readIds s).emitted.count i = 0 :=
          List.count_eq_zero.mpr hmem
        have h2 := hrec.1
        omega
    · intro hil
      have h1 : (mergeNotifications l batch readIds s).emitted.count i = 0 :=
        List.count_eq_zero.mpr
          (fun hmem => merge_emitted_not_prev l batch readIds s i hmem hil)
      have h2 : (runPasses (mergeNotifications l batch readIds s).list
          (mergeNotifications l batch readIds s).sent rest).2.2.count i = 0 :=
        hrec.2 ((mem_idsOf_merge l batch readIds s i).mpr (Or.inl hil))
      omega

/-! ### Sample data for concrete instantiations -/

/-- A concrete candidate without a recipient email. -/
def sampleData (i : String) (ts : Int) : NotifData :=
  ⟨i, .new_bid, "m", "/x", ts, none, none⟩

/-- A concrete candidate carrying a recipient email. -/
def sampleEmailData (i : String) (ts : Int) : NotifData :=
  ⟨i, .new_bid, "m", "/x", ts, some "a@b.c", none⟩

/-! ### Claims -/

/-- C9: the reconciled list's identity set grows monotonically within a
session: every merge pass produces a list whose identity set is a superset
of the previous list's identity set, because the merge never deletes
entries. -/
theorem claim9_ids_monotone (prev : List Notification) (batch : List NotifData)
    (readIds sent : List String) (i : String) (h : i ∈ idsOf prev) :
    i ∈ idsOf (mergeNotifications prev batch readIds sent).list :=
  (mem_idsOf_merge prev batch readIds sent i).mpr (Or.inl h)

theorem claim9_witness :
    "a" ∈ idsOf (mergeNotifications [⟨sampleData "a" 0, false⟩]
      [sampleData "b" 7] [] []).list :=
  claim9_ids_monotone [⟨sampleData "a" 0, false⟩] [sampleData "b" 7] [] [] "a"
    (by decide)

theorem idsOf_cons (n : Notification) (t : List Notification) :
    idsOf (n :: t) = n.data.id :: idsOf t := rfl

theorem unreadCount_eq_card (l : List Notification) (R : List String)
    (hann : ∀ n ∈ l, n.isRead = R.contains n.data.id)
    (hnod : (idsOf l).Nodup) :
    unreadCount l = ((idsOf l).toFinset \ R.toFinset).card := by
  induction l with
  | nil => simp [unreadCount, idsOf]
  | cons n t ih =>
    have hann_t : ∀ x ∈ t, x.isRead = R.contains x.data.id :=
      fun x hx => hann x (List.mem_cons_of_mem n hx)
    have hn := hann n (List.mem_cons_self n t)
    rw [idsOf_cons] at hnod
    have hhead : n.data.id ∉ idsOf t := (List.nodup_cons.mp hnod).1
    have htail : (idsOf t).Nodup := (List.nodup_cons.mp hnod).2
    by_cases hr : n.data.id ∈ R
    · have hcont : R.contains n.data.id = true := by simpa using hr
      have hstep : unreadCount (n :: t) = unreadCount t := by
        simp [unreadCount, List.filter_cons, hn, hcont, hr]
      rw [hstep, ih hann_t htail, idsOf_cons, List.toFinset_cons,
        Finset.insert_sdiff_of_mem _ (by simpa using hr)]
    · have hcont : R.contains n.data.id = false := by simpa using hr
      have hstep : unreadCount (n :: t) = unreadCount t + 1 := by
        simp [unreadCount, List.filter_cons, hn, hcont, hr]
      rw [hstep, ih hann_t htail, idsOf_cons, List.toFinset_cons,
        Finset.insert_sdiff_of_not_mem _ (by simpa using hr),
        Finset.card_insert_of_not_mem]
      intro hmem
      exact hhead (by simpa using (Finset.mem_sdiff.mp hmem).1)

/-- C3: for every reconciled list (a merge output) with identity set I and
the read-identity set R under which it was annotated, the derived unread
counter equals the cardinality of I minus R exactly. -/
theorem claim3_unread_count (prev : List Notification) (batch : List NotifData)
    (readIds sent : List String) :
    unreadCount (mergeNotifications prev batch readIds sent).list =
      ((idsOf (mergeNotifications prev batch readIds sent).list).toFinset \
        readIds.toFinset).card :=
  unreadCount_eq_card _ readIds
    (isRead_eq_of_mem_merge prev batch readIds sent)
    (nodup_idsOf_merge prev batch readIds sent)

/-- C8: markAllRead computes the currently unread identities from the
reconciled list; when none exist it issues zero persistence writes, and
otherwise it issues exactly one write whose payload unions exactly those
identities into the read state. -/
theorem claim8_mark_all_read (l : List Notification) :
    ((l.filter fun n => ! n.isRead) = [] → handleMarkAsRead l = none) ∧
      ((l.filter fun n => ! n.isRead) ≠ [] →
        handleMarkAsRead l =
          some ((l.filter fun n => ! n.isRead).map fun n => n.data.id)) := by
  constructor
  · intro h
    unfold handleMarkAsRead
    by_cases hl : l.isEmpty
    · simp [hl]
    · simp [hl, h]
  · intro h
    unfold handleMarkAsRead
    have hl : l.isEmpty = false := by
      cases l with
      | nil => exact absurd rfl h
      | cons a t => rfl
    have hne : ((l.filter fun n => ! n.isRead).map fun n => n.data.id) ≠ [] := by
      simpa using h
    simp [hl, hne]

theorem claim8_witness :
    handleMarkAsRead [⟨sampleData "a" 0, false⟩, ⟨sampleData "b" 1, true⟩] =
      some ["a"] :=
  (claim8_mark_all_read [⟨sampleData "a" 0, false⟩, ⟨sampleData "b" 1, true⟩]).2
    (by decide)

/-- C10: a candidate without a recipient email never triggers a side-channel
delivery request, even when newly appeared and unread: sendEmailNotification
returns without enqueuing and without recording the identity as delivered,
so a later candidate for the same identity that does carry an email can
still be delivered; a merge pass whose only candidate for the identity lacks
an email enqueues nothing. -/
theorem claim10_no_email_no_delivery (sent : List String) (n n' : NotifData)
    (e : String) (prev : List Notification) (readIds s2 : List String)
    (hn : n.recipientEmail = none) (hid : n'.id = n.id)
    (he : n'.recipientEmail = some e) (hs : sent.contains n.id = false) :
    sendEmailNotification sent n = (none, sent) ∧
      sendEmailNotification sent n' = (some (mkMail e n'), sent ++ [n'.id]) ∧
      (mergeNotifications prev [n] readIds s2).emitted = [] ∧
      (mergeNotifications prev [n] readIds s2).mails = [] := by
  refine ⟨?_, ?_, ?_, ?_⟩
  · unfold sendEmailNotification
    rw [hn]
  · unfold sendEmailNotification
    rw [he, hid, hs]
    simp
  · rw [merge_emitted_def]
    rw [List.eq_nil_iff_forall_not_mem]
    intro i hmem
    obtain ⟨nb, hfind, hmail⟩ :=
      (emitted_forward readIds (seedMap prev) s2 [n] i hmem).2.2.2
    have hnb : nb ∈ [n] := List.mem_of_find?_eq_some hfind
    rw [List.mem_singleton.mp hnb, hn] at hmail
    simp at hmail
  · rw [merge_mails_def, ← List.length_eq_zero, mergeAux_mails_length,
      List.length_eq_zero, ← merge_emitted_def]
    rw [List.eq_nil_iff_forall_not_mem]
    intro i hmem
    obtain ⟨nb, hfind, hmail⟩ :=
      (emitted_forward readIds (seedMap prev) s2 [n] i
        (merge_emitted_def prev [n] readIds s2 ▸ hmem)).2.2.2
    have hnb : nb ∈ [n] := List.mem_of_find?_eq_some hfind
    rw [List.mem_singleton.mp hnb, hn] at hmail
    simp at hmail

theorem claim10_witness :
    sendEmailNotification [] (sampleData "a" 0) = (none, []) ∧
      sendEmailNotification [] (sampleEmailData "a" 0) =
        (some (mkMail "a@b.c" (sampleEmailData "a" 0)), ["a"]) ∧
      (mergeNotifications [] [sampleData "a" 0] [] []).emitted = [] ∧
      (mergeNotifications [] [sampleData "a" 0] [] []).mails = [] := by
  have h := claim10_no_email_no_delivery [] (sampleData "a" 0)
    (sampleEmailData "a" 0) "a@b.c" [] [] [] rfl rfl rfl rfl
  exact ⟨h.1, h.2.1, h.2.2.1, h.2.2.2⟩

/-- C1: the merge builds an identity-keyed mapping seeded from the existing
list, overwrites/inserts each new candidate with last-write-wins, and
returns exactly the values of that mapping, annotated with
isRead = (identity in read set), sorted descending by generation
timestamp. -/
theorem claim1_merge_contract (prev : List Notification) (batch : List NotifData)
    (readIds sent : List String) :
    (mergeNotifications prev batch readIds sent).list.Perm
        ((mergeMap prev batch).map (annotate readIds)) ∧
      List.Sorted notifGE (mergeNotifications prev batch readIds sent).list ∧
      (∀ i, mapGet (mergeMap prev batch) i =
        (batch.reverse.find? (fun x => x.id == i)).or
          (mapGet (seedMap prev) i)) ∧
      (∀ n ∈ (mergeNotifications prev batch readIds sent).list,
        n.isRead = readIds.contains n.data.id) :=
  ⟨mergeNotifications_list_perm prev batch readIds sent,
    mergeNotifications_list_sorted prev batch readIds sent,
    fun i => mapGet_applyBatch (seedMap prev) batch i,
    fun n hn => isRead_eq_of_mem_merge prev batch readIds sent n hn⟩

theorem claim1_witness :
    List.Sorted notifGE
      (mergeNotifications [⟨sampleData "a" 5, false⟩]
        [sampleData "b" 9, sampleData "a" 2] ["a"] []).list :=
  (claim1_merge_contract [⟨sampleData "a" 5, false⟩]
    [sampleData "b" 9, sampleData "a" 2] ["a"] []).2.1

/-- C5: re-merging the same candidate batch against an unchanged
read-identity set leaves every entry's isRead flag unchanged and triggers no
second side-channel delivery: the second pass emits no delivery request at
all. -/
theorem claim5_idempotent (prev : List Notification) (batch : List NotifData)
    (readIds sent : List String) :
    (∀ n2 ∈ (mergeNotifications (mergeNotifications prev batch readIds sent).list
        batch readIds (mergeNotifications prev batch readIds sent).sent).list,
      ∀ n1 ∈ (mergeNotifications prev batch readIds sent).list,
        n2.data.id = n1.data.id → n2.isRead = n1.isRead) ∧
      (mergeNotifications (mergeNotifications prev batch readIds sent).list
        batch readIds (mergeNotifications prev batch readIds sent).sent).emitted
        = [] ∧
      (mergeNotifications (mergeNotifications prev batch readIds sent).list
        batch readIds (mergeNotifications prev batch readIds sent).sent).mails
        = [] := by
  have hemitted :
      (mergeNotifications (mergeNotifications prev batch readIds sent).list
        batch readIds (mergeNotifications prev batch readIds sent).sent).emitted
        = [] := by
    rw [List.eq_nil_iff_forall_not_mem]
    intro i hmem
    have hbatch := merge_emitted_mem_batch _ _ _ _ _ hmem
    have hprev := merge_emitted_not_prev _ _ _ _ _ hmem
    exact hprev ((mem_idsOf_merge prev batch readIds sent i).mpr (Or.inr hbatch))
  refine ⟨?_, hemitted, ?_⟩
  · intro n2 h2 n1 h1 hid
    rw [isRead_eq_of_mem_merge _ _ _ _ n2 h2,
      isRead_eq_of_mem_merge _ _ _ _ n1 h1, hid]
  · rw [merge_mails_def, ← List.length_eq_zero, mergeAux_mails_length,
      List.length_eq_zero, ← merge_emitted_def]
    exact hemitted

theorem claim5_witness :
    (mergeNotifications (mergeNotifications [] [sampleEmailData "a" 0] [] []).list
      [sampleEmailData "a" 0] []
      (mergeNotifications [] [sampleEmailData "a" 0] [] []).sent).emitted
      = [] :=
  (claim5_idempotent [] [sampleEmailData "a" 0] [] []).2.1

/-- C2, counterexample to the claim as stated: a candidate whose identity is
in the new batch, absent from the prior mapping and absent from the
read-identity set, but which carries no recipient email, triggers no
side-channel delivery request on that pass (the claim asserts one is
emitted). -/
theorem claim2_counterexample :
    ("a" ∈ idsD [sampleData "a" 0] ∧ "a" ∉ idsOf ([] : List Notification) ∧
        ("a" : String) ∉ ([] : List String)) ∧
      (mergeNotifications [] [sampleData "a" 0] [] []).emitted = [] ∧
      (mergeNotifications [] [sampleData "a" 0] [] []).mails = [] := by
  refine ⟨⟨?_, ?_, ?_⟩, ?_, ?_⟩
  · decide
  · decide
  · decide
  · rfl
  · rfl

/-- C2 (amended): across any sequence of merge passes in one session
starting from an empty list and an empty sent set, a side-channel delivery
request is emitted for an identity at most once; within a pass it is emitted
exactly when the identity is present in the new batch, absent from the prior
mapping, absent from the read-identity set, and its first occurrence in the
batch carries a recipient email address. -/
theorem claim2_amended_delivery_once
    (passes : List (List NotifData × List String))
    (prev : List Notification) (batch : List NotifData)
    (readIds sent : List String) (i : String)
    (hsub : ∀ j ∈ sent, j ∈ idsOf prev) :
    ((runPasses [] [] passes).2.2.count i ≤ 1) ∧
      (i ∈ (mergeNotifications prev batch readIds sent).emitted ↔
        (i ∉ idsOf prev ∧ readIds.contains i = false ∧
          ∃ n, batch.find? (fun x => x.id == i) = some n ∧
            n.recipientEmail.isSome)) :=
  ⟨(session_count passes [] [] (by simp [idsOf]) i).1,
    merge_emitted_iff prev batch readIds sent i hsub⟩

theorem claim2_witness :
    (runPasses [] [] [([sampleEmailData "a" 3], []),
      ([sampleEmailData "a" 3], [])]).2.2.count "a" ≤ 1 :=
  (claim2_amended_delivery_once
    [([sampleEmailData "a" 3], []), ([sampleEmailData "a" 3], [])]
    [] [] [] [] "a" (by simp)).1

theorem gigs_ne_gig_aux (uid : String) : "gigs-" ++ uid ≠ "gig-p1" := by
  intro h
  have hd := congrArg String.data h
  rw [String.data_append] at hd
  have hlit : ("gigs-" : String).data = ['g','i','g','s','-'] := rfl
  have hlit2 : ("gig-p1" : String).data = ['g','i','g','-','p','1'] := rfl
  rw [hlit, hlit2] at hd
  injection hd with h1 hd
  injection hd with h2 hd
  injection hd with h3 hd
  injection hd with h4 hd
  exact absurd h4 (by decide)

/-- C6: for a non-admin user with an unread-gig counter of 1, the resolved
lookup path emits identity gig-p1 with the hire message for the project's
title, the empty/failed lookup path emits identity gigs-(uid) with the
generic message, and the two paths use different identities. -/
theorem claim6_gig_identity (uid : String) (u : UserRecord)
    (gig : ProjectRequest) (now : Int) (hrole : u.role ≠ "admin")
    (hcount : u.unreadGigsCount = some 1) (hgid : gig.id = "p1")
    (hgtitle : gig.title = "Sunset Shoot") :
    (⟨"gig-p1", .gig_hired, "You've been hired for \"Sunset Shoot\"!",
        "/requests/p1", now, u.email, u.name⟩ : NotifData) ∈
        userNotifications uid u (some gig) now ∧
      (⟨"gigs-" ++ uid, .gig_hired, "You have 1 new gig!", "/requests", now,
        u.email, u.name⟩ : NotifData) ∈ userNotifications uid u none now ∧
      ("gigs-" ++ uid) ≠ "gig-p1" := by
  have hr : (u.role == "admin") = false := beq_eq_false_iff_ne.mpr hrole
  refine ⟨?_, ?_, gigs_ne_gig_aux uid⟩
  · have hrw : userNotifications uid u (some gig) now =
        [⟨"gig-" ++ gig.id, .gig_hired,
          "You've been hired for \"" ++ gig.title ++ "\"!",
          "/requests/" ++ gig.id, now, u.email, u.name⟩] ++
        (match u.pendingReviewCount with
         | some c =>
           if c > 0 then
             [⟨"review-multi-" ++ uid, .review_request,
               "You have " ++ toString c ++ " project(s) to review.",
               "/requests", now, u.email, u.name⟩]
           else []
         | none => []) := by
      simp [userNotifications, hr, hcount]
    rw [hrw, hgid, hgtitle]
    exact List.mem_append_left _ (List.mem_singleton.mpr rfl)
  · have hrw : userNotifications uid u none now =
        [⟨"gigs-" ++ uid, .gig_hired, "You have 1 new gig!", "/requests", now,
          u.email, u.name⟩] ++
        (match u.pendingReviewCount with
         | some c =>
           if c > 0 then
             [⟨"review-multi-" ++ uid, .review_request,
               "You have " ++ toString c ++ " project(s) to review.",
               "/requests", now, u.email, u.name⟩]
           else []
         | none => []) := by
      simp [userNotifications, hr, hcount]
    rw [hrw]
    exact List.mem_append_left _ (List.mem_singleton.mpr rfl)

/-- A concrete non-admin user with one unread gig. -/
def sampleUser : UserRecord :=
  { role := "user", unreadGigsCount := some 1 }

/-- A concrete in-progress project resolvable by the best-effort lookup. -/
def sampleGig : ProjectRequest :=
  { id := "p1", userId := "c1", title := "Sunset Shoot",
    status := "In Progress", createdAt := 0 }

theorem claim6_witness :
    (⟨"gig-p1", .gig_hired, "You've been hired for \"Sunset Shoot\"!",
        "/requests/p1", 0, none, none⟩ : NotifData) ∈
      userNotifications "u1" sampleUser (some sampleGig) 0 :=
  (claim6_gig_identity "u1" sampleUser sampleGig 0 (by decide) rfl rfl rfl).1

/-- The bid candidates among a batch (entries of kind new_bid). -/
def bidCandidates (l : List NotifData) : List NotifData :=
  l.filter fun n => n.type == NotificationType.new_bid

theorem filter_ite (p : NotifData → Bool) (c : Prop) [Decidable c]
    (l1 l2 : List NotifData) :
    (if c then l1 else l2).filter p = if c then l1.filter p else l2.filter p := by
  split <;> rfl

/-- C7: for a request r1 owned by the viewing user with an unread-bids
counter of 2, the project producer emits exactly one bid candidate, with
identity bid-r1, a message containing "2 new bid(s)", and navigation target
/requests/r1. -/
theorem claim7_bid_candidate (uid : String) (em nm : Option String) (now : Int)
    (req : ProjectRequest) (huser : req.userId = uid) (hid : req.id = "r1")
    (hbids : req.unreadBidsCount = some 2) :
    bidCandidates (requestNotifications uid em nm now req) =
      [⟨"bid-r1", .new_bid, "2 new bid(s) on \"" ++ req.title ++ "\"",
        "/requests/r1", now, em, nm⟩] ∧
      ∃ pre post, ("2 new bid(s) on \"" ++ req.title ++ "\"" : String) =
        pre ++ "2 new bid(s)" ++ post := by
  constructor
  · obtain ⟨rid, ruid, rtitle, rstatus, rca, rbids, rcr, rphr, rpra, rhp,
      rdra, rdr⟩ := req
    simp only at huser hid hbids
    subst huser hid hbids
    rcases rpra with _ | t <;> rcases rdra with _ | t2 <;>
      simp +decide [bidCandidates, requestNotifications, List.filter_append,
        filter_ite, List.filter_cons,
        show toString (2 : Nat) = "2" from rfl]
  · exact ⟨"", " on \"" ++ req.title ++ "\"", by
      apply String.ext
      simp [String.data_append, List.append_assoc]⟩

/-- A concrete owned request with two unread bids. -/
def sampleRequest : ProjectRequest :=
  { id := "r1", userId := "o1", title := "W", status := "Open",
    createdAt := 0, unreadBidsCount := some 2 }

theorem claim7_witness :
    bidCandidates (requestNotifications "o1" none none 0 sampleRequest) =
      [⟨"bid-r1", .new_bid, "2 new bid(s) on \"W\"", "/requests/r1", 0,
        none, none⟩] :=
  (claim7_bid_candidate "o1" none none 0 sampleRequest rfl rfl rfl).1

theorem option_eq_of_some_iff {α : Type} (o1 o2 : Option α)
    (h : ∀ d, o1 = some d ↔ o2 = some d) : o1 = o2 := by
  cases o1 with
  | some d => exact ((h d).mp rfl).symm
  | none =>
    cases o2 with
    | none => rfl
    | some d => exact absurd ((h d).mpr rfl) (by simp)

/-- Looking an identity up in a reconciled list (the mapping the list
induces). -/
def listFind (l : List Notification) (i : String) : Option Notification :=
  l.find? fun n => n.data.id == i

theorem listFind_eq_some_iff (l : List Notification) (i : String)
    (x : Notification) (h : (idsOf l).Nodup) :
    listFind l i = some x ↔ x ∈ l ∧ x.data.id = i := by
  induction l with
  | nil => simp [listFind]
  | cons y t ih =>
    rw [idsOf_cons] at h
    have hy := (List.nodup_cons.mp h).1
    have ht := (List.nodup_cons.mp h).2
    by_cases hyi : y.data.id = i
    · simp only [listFind]
      rw [List.find?_cons_of_pos _ (by simp [hyi])]
      constructor
      · intro h1
        have hxy : y = x := by injection h1
        subst hxy
        exact ⟨List.mem_cons_self y t, hyi⟩
      · rintro ⟨hd, hdi⟩
        rcases List.mem_cons.mp hd with rfl | hdxs
        · rfl
        · have hmem : x.data.id ∈ idsOf t := List.mem_map_of_mem _ hdxs
          exact absurd ((hdi.trans hyi.symm) ▸ hmem) hy
    · simp only [listFind] at ih ⊢
      rw [List.find?_cons_of_neg _ (by simp [hyi]), ih ht]
      constructor
      · rintro ⟨hd, hdi⟩
        exact ⟨List.mem_cons_of_mem y hd, hdi⟩
      · rintro ⟨hd, hdi⟩
        rcases List.mem_cons.mp hd with rfl | hdxs
        · exact absurd hdi hyi
        · exact ⟨hdxs, hdi⟩

theorem mapHas_append (a b : List NotifData) (i : String) :
    mapHas (a ++ b) i = (mapHas a i || mapHas b i) := by
  simp [mapHas, List.any_append]

theorem mapSet_eq_append (m : List NotifData) (n : NotifData)
    (h : mapHas m n.id = false) : mapSet m n = m ++ [n] := by
  induction m with
  | nil => rfl
  | cons x xs ih =>
    simp only [mapHas, List.any_cons, Bool.or_eq_false_iff] at h
    have hx : ¬ ((x.id == n.id) = true) := by simp [h.1]
    simp only [mapSet, if_neg hx]
    rw [ih h.2, List.cons_append]

theorem applyBatch_eq_append (xs : List NotifData) (acc : List NotifData)
    (hdisj : ∀ x ∈ xs, mapHas acc x.id = false)
    (h : (idsD xs).Nodup) : applyBatch acc xs = acc ++ xs := by
  induction xs generalizing acc with
  | nil => simp [applyBatch_nil]
  | cons x l ih =>
    rw [applyBatch_cons, mapSet_eq_append acc x (hdisj x (List.mem_cons_self x l))]
    rw [idsD_cons] at h
    have hx := (List.nodup_cons.mp h).1
    have hl := (List.nodup_cons.mp h).2
    have hdisj' : ∀ y ∈ l, mapHas (acc ++ [x]) y.id = false := by
      intro y hy
      rw [mapHas_append]
      have h1 := hdisj y (List.mem_cons_of_mem x hy)
      have h2 : mapHas [x] y.id = false := by
        have hne : ¬ ((x.id == y.id) = true) := by
          simp only [beq_iff_eq]
          intro he
          exact hx (by rw [he]; exact List.mem_map_of_mem _ hy)
        simp [mapHas, hne]
      simp [h1, h2]
    rw [ih (acc ++ [x]) hdisj' hl, List.append_assoc]
    rfl

theorem applyBatch_nil_acc (xs : List NotifData) (h : (idsD xs).Nodup) :
    applyBatch [] xs = xs := by
  have := applyBatch_eq_append xs [] (fun x _ => rfl) h
  simpa using this

theorem mapGet_seedMap_iff (l : List Notification) (i : String) (d : NotifData)
    (h : (idsOf l).Nodup) :
    mapGet (seedMap l) i = some d ↔ (∃ n ∈ l, n.data = d) ∧ d.id = i := by
  rw [seedMap_eq]
  have hnd : (idsD (l.map fun n => n.data)).Nodup := by
    rw [idsD_map_data]; exact h
  rw [applyBatch_nil_acc _ hnd, mapGet_eq_some_iff _ _ _ hnd]
  constructor
  · rintro ⟨hd, hdi⟩
    obtain ⟨n, hn, hnd2⟩ := List.mem_map.mp hd
    exact ⟨⟨n, hn, hnd2⟩, hdi⟩
  · rintro ⟨⟨n, hn, hnd2⟩, hdi⟩
    exact ⟨List.mem_map.mpr ⟨n, hn, hnd2⟩, hdi⟩

theorem listFind_merge (prev : List Notification) (batch : List NotifData)
    (readIds sent : List String) (i : String) :
    listFind (mergeNotifications prev batch readIds sent).list i =
      (mapGet (mergeMap prev batch) i).map (annotate readIds) := by
  apply option_eq_of_some_iff
  intro x
  rw [listFind_eq_some_iff _ _ _ (nodup_idsOf_merge prev batch readIds sent)]
  constructor
  · rintro ⟨hmem, hix⟩
    have hmem2 : x ∈ (mergeMap prev batch).map (annotate readIds) :=
      (mergeNotifications_list_perm prev batch readIds sent).mem_iff.mp hmem
    obtain ⟨d, hd, rfl⟩ := List.mem_map.mp hmem2
    have hd2 : mapGet (mergeMap prev batch) i = some d := by
      rw [mapGet_eq_some_iff _ _ _ (nodup_idsD_mergeMap prev batch)]
      exact ⟨hd, hix⟩
    rw [hd2]
    rfl
  · intro hx
    obtain ⟨d, hd, hdx⟩ := Option.map_eq_some'.mp hx
    have h2 := (mapGet_eq_some_iff _ i d (nodup_idsD_mergeMap prev batch)).mp hd
    constructor
    · rw [← hdx]
      exact (mergeNotifications_list_perm prev batch readIds sent).mem_iff.mpr
        (List.mem_map_of_mem _ h2.1)
    · rw [← hdx]
      exact h2.2

theorem seed_of_merge (prev : List Notification) (batch : List NotifData)
    (readIds sent : List String) (i : String) :
    mapGet (seedMap (mergeNotifications prev batch readIds sent).list) i =
      mapGet (mergeMap prev batch) i := by
  apply option_eq_of_some_iff
  intro d
  rw [mapGet_seedMap_iff _ _ _ (nodup_idsOf_merge prev batch readIds sent),
    mapGet_eq_some_iff _ _ _ (nodup_idsD_mergeMap prev batch)]
  constructor
  · rintro ⟨⟨n, hn, hnd⟩, hdi⟩
    have hn2 : n ∈ (mergeMap prev batch).map (annotate readIds) :=
      (mergeNotifications_list_perm prev batch readIds sent).mem_iff.mp hn
    obtain ⟨d2, hd2, hd2n⟩ := List.mem_map.mp hn2
    rw [← hd2n] at hnd
    have hdd : d2 = d := hnd
    exact ⟨hdd ▸ hd2, hdi⟩
  · rintro ⟨hd, hdi⟩
    refine ⟨⟨annotate readIds d, ?_, rfl⟩, hdi⟩
    exact (mergeNotifications_list_perm prev batch readIds sent).mem_iff.mpr
      (List.mem_map_of_mem _ hd)

/-- C4: two merge passes with identity-disjoint candidate batches produce an
identical final identity-keyed mapping in either order, and in any single
merge pass every existing entry whose identity is not in the new batch is
preserved with its fields unchanged, apart from the recomputed isRead
annotation. -/
theorem claim4_disjoint_commute (prev : List Notification)
    (A B : List NotifData) (readIds sent : List String)
    (hdisj : ∀ i ∈ idsD A, i ∉ idsD B) :
    (∀ i,
      listFind (mergeNotifications
        (mergeNotifications prev A readIds sent).list B readIds
        (mergeNotifications prev A readIds sent).sent).list i =
      listFind (mergeNotifications
        (mergeNotifications prev B readIds sent).list A readIds
        (mergeNotifications prev B readIds sent).sent).list i) ∧
      (∀ n ∈ prev, (idsOf prev).Nodup → n.data.id ∉ idsD A →
        listFind (mergeNotifications prev A readIds sent).list n.data.id =
          some ⟨n.data, readIds.contains n.data.id⟩) := by
  constructor
  · intro i
    rw [listFind_merge, listFind_merge]
    have h12 : mapGet (mergeMap (mergeNotifications prev A readIds sent).list B) i =
        (B.reverse.find? (fun x => x.id == i)).or
          ((A.reverse.find? (fun x => x.id == i)).or
            (mapGet (seedMap prev) i)) := by
      rw [mergeMap, mapGet_applyBatch, seed_of_merge, mergeMap,
        mapGet_applyBatch]
    have h21 : mapGet (mergeMap (mergeNotifications prev B readIds sent).list A) i =
        (A.reverse.find? (fun x => x.id == i)).or
          ((B.reverse.find? (fun x => x.id == i)).or
            (mapGet (seedMap prev) i)) := by
      rw [mergeMap, mapGet_applyBatch, seed_of_merge, mergeMap,
        mapGet_applyBatch]
    rw [h12, h21]
    by_cases hiA : i ∈ idsD A
    · have hB : B.reverse.find? (fun x => x.id == i) = none := by
        rw [List.find?_eq_none]
        intro x hx
        simp only [beq_iff_eq]
        intro he
        have hxB : x.id ∈ idsD B :=
          List.mem_map_of_mem (fun x => x.id) (List.mem_reverse.mp hx)
        rw [he] at hxB
        exact hdisj i hiA hxB
      rw [hB]
      cases A.reverse.find? (fun x => x.id == i) <;> simp [Option.or]
    · have hA : A.reverse.find? (fun x => x.id == i) = none := by
        rw [List.find?_eq_none]
        intro x hx
        simp only [beq_iff_eq]
        intro he
        have hxA : x.id ∈ idsD A :=
          List.mem_map_of_mem (fun x => x.id) (List.mem_reverse.mp hx)
        rw [he] at hxA
        exact hiA hxA
      rw [hA]
      cases B.reverse.find? (fun x => x.id == i) <;> simp [Option.or]
  · intro n hn hnodup hnotin
    rw [listFind_merge, mergeMap, mapGet_applyBatch]
    have hAnone : A.reverse.find? (fun x => x.id == n.data.id) = none := by
      rw [List.find?_eq_none]
      intro x hx
      simp only [beq_iff_eq]
      intro he
      have hxA : x.id ∈ idsD A :=
        List.mem_map_of_mem (fun x => x.id) (List.mem_reverse.mp hx)
      rw [he] at hxA
      exact hnotin hxA
    rw [hAnone]
    have hseed : mapGet (seedMap prev) n.data.id = some n.data :=
      (mapGet_seedMap_iff prev _ _ hnodup).mpr ⟨⟨n, hn, rfl⟩, rfl⟩
    show (mapGet (seedMap prev) n.data.id).map (annotate readIds) = _
    rw [hseed]
    rfl

theorem claim4_witness :
    listFind (mergeNotifications
      (mergeNotifications [⟨sampleData "p" 1, false⟩] [sampleData "a" 2] [] []).list
      [sampleData "b" 3] []
      (mergeNotifications [⟨sampleData "p" 1, false⟩] [sampleData "a" 2] [] []).sent).list
      "b" =
    listFind (mergeNotifications
      (mergeNotifications [⟨sampleData "p" 1, false⟩] [sampleData "b" 3] [] []).list
      [sampleData "a" 2] []
      (mergeNotifications [⟨sampleData "p" 1, false⟩] [sampleData "b" 3] [] []).sent).list
      "b" :=
  (claim4_disjoint_commute [⟨sampleData "p" 1, false⟩] [sampleData "a" 2]
    [sampleData "b" 3] [] [] (by decide)).1 "b"
